import Mathlib

/-!
Verification of the variety.js MongoDB schema analyzer (shallow embedding).

The source is a single mongo-shell script.  Documents are modelled as
association lists of string keys to `JSValue`s (JavaScript object key
insertion order is the list order).  The opaque BSON wrapper values
(`Date`, `ObjectId`, `BinData`, `NumberLong`) are niladic constructors: the
script never inspects their contents, only their identity.  The config
value `arrayEscape` is fixed to its default `"XX"` (the script builds its
regexes from it; every claim under scrutiny uses the default).
-/

set_option autoImplicit false

namespace Variety

/-- JavaScript/BSON values as seen by the script. -/
inductive JSValue where
  | vUndefined : JSValue
  | vNull : JSValue
  | vBool : Bool → JSValue
  | vNumber : Int → JSValue
  | vString : String → JSValue
  | vDate : JSValue
  | vNumberLong : JSValue
  | vObjectId : JSValue
  | vBinData : JSValue
  | vArray : List JSValue → JSValue
  | vObject : List (String × JSValue) → JSValue

/-- A document: one record of the collection (a top-level JS object). -/
def Document := List (String × JSValue)

/-- Source `varietyTypeOf` (lines 137-166): total classification of a value
into a canonical type tag.  `typeof` non-objects are capitalized kind names;
objects are discriminated by identity checks, with `Object` as the default. -/
def varietyTypeOf : JSValue → String
  | .vUndefined => "undefined"
  | .vBool _ => "Boolean"
  | .vNumber _ => "Number"
  | .vString _ => "String"
  | .vArray _ => "Array"
  | .vNull => "null"
  | .vDate => "Date"
  | .vNumberLong => "NumberLong"
  | .vObjectId => "ObjectId"
  | .vBinData => "BinData"
  | .vObject _ => "Object"

/-- First `key == k` entry of a JS-object-like association list. -/
def assocLookup {α : Type} : List (String × α) → String → Option α
  | [], _ => none
  | (k, v) :: rest, key => if k = key then some v else assocLookup rest key

/-- JS property write `m[key] = v`: replace in place if the key exists
(keeping its position), otherwise append at the end. -/
def upsert {α : Type} : List (String × α) → String → α → List (String × α)
  | [], key, v => [(key, v)]
  | (k, w) :: rest, key, v =>
    if k = key then (k, v) :: rest else (k, w) :: upsert rest key v

/-- JS in-place update of an existing property via a function. -/
def assocModify {α : Type} : List (String × α) → String → (α → α) → List (String × α)
  | [], _, _ => []
  | (k, v) :: rest, key, f =>
    if k = key then (k, f v) :: rest else (k, v) :: assocModify rest key f

/-- Fuel-driven scan for the regex `\.XX\d+XX\.` (global), each match
replaced by `"."`; scanning resumes after a match, one character further
after a failed attempt, exactly like the JS global replace at line 188.
The fuel only bounds the recursion; `fuel = length` always suffices since
every step consumes at least one input character. -/
def stripArrGo : Nat → List Char → List Char
  | 0, cs => cs
  | _ + 1, [] => []
  | fuel + 1, '.' :: rest =>
    match rest with
    | 'X' :: 'X' :: rest2 =>
      let ds := rest2.takeWhile Char.isDigit
      if ds.isEmpty then '.' :: stripArrGo fuel rest
      else
        match rest2.drop ds.length with
        | 'X' :: 'X' :: '.' :: rest3 => '.' :: stripArrGo fuel rest3
        | _ => '.' :: stripArrGo fuel rest
    | _ => '.' :: stripArrGo fuel rest
  | fuel + 1, c :: rest => c :: stripArrGo fuel rest

/-- Source line 185/188: `parentKey.replace(/\.XX\d+XX\./g, '.')`. -/
def stripArraySegs (s : String) : String :=
  ⟨stripArrGo s.data.length s.data⟩

/-- Source line 86: `excludeSubkeys` config entries become presence keys
with a trailing dot appended. -/
def mkExcludeSubkeys (items : List String) : List String :=
  items.map (fun item => item ++ ".")

/-- JS `hasOwnProperty` test on the exclude-set object (string keys). -/
def memberStr : List String → String → Bool
  | [], _ => false
  | e :: rest, s => if e = s then true else memberStr rest s

/-- Source `isHash` of `serializeDoc` (lines 175-183): arrays and objects
may be recursed into; the special wrapper objects are opaque leaves.  Note
that `typeof null === "object"` in JS, so `null` counts as a hash there
(recursing into it visits nothing). -/
def isHash : JSValue → Bool
  | .vArray _ => true
  | .vObject _ => true
  | .vNull => true
  | _ => false

/-- The key/value pairs the `for (var key in document)` loop of
`serializeDoc` visits, with the array-index escape of line 197 already
applied to array elements (`key = "XX" + key + "XX"`). -/
def levelEntries : JSValue → List (String × JSValue)
  | .vObject fields => fields
  | .vArray elems => elems.enum.map (fun p => ("XX" ++ toString p.1 ++ "XX", p.2))
  | _ => []

/-- Source `serialize` (lines 187-204), the recursive worker of the flat
flattener: bail out when the normalized accumulated path is in the exclude
set, otherwise record every visited field and recurse into hash-like
values while more than one level of depth budget remains.  The source
guard `maxDepth > 1` is realized by the pattern split: the first arm is
`maxDepth ≥ 2` (recursing at `maxDepth - 1 = m + 1`), the second arm
`maxDepth ∈ {0, 1}` (field recorded, no recursion). -/
def serializeGo (ex : List String) : Nat → JSValue → String → List (String × JSValue) →
    List (String × JSValue)
  | m + 2, document, parentKey, result =>
    if memberStr ex (stripArraySegs parentKey) then result
    else
      (levelEntries document).foldl
        (fun res kv =>
          let res := upsert res (parentKey ++ kv.1) kv.2
          if isHash kv.2 then serializeGo ex (m + 1) kv.2 (parentKey ++ kv.1 ++ ".") res
          else res)
        result
  | _, document, parentKey, result =>
    if memberStr ex (stripArraySegs parentKey) then result
    else
      (levelEntries document).foldl
        (fun res kv => upsert res (parentKey ++ kv.1) kv.2)
        result

/-- Source `serializeDoc` (lines 170-207): flatten a document to
one-dimensional dot-joined paths. -/
def serializeDoc (doc : Document) (maxDepth : Nat) (excludeSubkeys : List String) :
    List (String × JSValue) :=
  serializeGo excludeSubkeys maxDepth (.vObject doc) "" []

/-- Source `serializeDocterark` (lines 209-237): a shallow copy of the
document's own top-level fields — the `serializeterark` loop records every
top-level field verbatim and never recurses (`maxDepth` is threaded but
unused). -/
def serializeDocterark (doc : Document) (_maxDepth : Nat) : List (String × JSValue) :=
  doc.foldl (fun r kv => upsert r kv.1 kv.2) []

/-- Fuel-driven scan for the regex `\.XX\d+XX` (global, no trailing dot),
each match replaced by `".XX"` — source line 242 used by the flat
`analyseDocument`. -/
def normFlatGo : Nat → List Char → List Char
  | 0, cs => cs
  | _ + 1, [] => []
  | fuel + 1, '.' :: rest =>
    match rest with
    | 'X' :: 'X' :: rest2 =>
      let ds := rest2.takeWhile Char.isDigit
      if ds.isEmpty then '.' :: normFlatGo fuel rest
      else
        match rest2.drop ds.length with
        | 'X' :: 'X' :: rest3 => '.' :: 'X' :: 'X' :: normFlatGo fuel rest3
        | _ => '.' :: normFlatGo fuel rest
    | _ => '.' :: normFlatGo fuel rest
  | fuel + 1, c :: rest => c :: normFlatGo fuel rest

/-- Source line 245: `key.replace(/\.XX\d+XX/g, '.XX')`. -/
def normKeyFlat (s : String) : String :=
  ⟨normFlatGo s.data.length s.data⟩

/-- Fuel-driven scan for the regex `\.\d+` (global), each match replaced by
`".XX"` — source line 277 used by `analyseDocumentterark`. -/
def normTerarkGo : Nat → List Char → List Char
  | 0, cs => cs
  | _ + 1, [] => []
  | fuel + 1, '.' :: rest =>
    let ds := rest.takeWhile Char.isDigit
    if ds.isEmpty then '.' :: normTerarkGo fuel rest
    else '.' :: 'X' :: 'X' :: normTerarkGo fuel (rest.drop ds.length)
  | fuel + 1, c :: rest => c :: normTerarkGo fuel rest

/-- Source line 277: `key.replace(/\.\d+/g, '.XX')`. -/
def normKeyTerark (s : String) : String :=
  ⟨normTerarkGo s.data.length s.data⟩

/-- Flat per-document analysis, source `analyseDocument` (lines 240-253):
map each flattened path (array ordinals normalized away) to the set of
type tags of its values, in insertion order. -/
def analyseDocument (document : List (String × JSValue)) : List (String × List String) :=
  document.foldl
    (fun result kv =>
      let key := normKeyFlat kv.1
      let types := (assocLookup result key).getD []
      let t := varietyTypeOf kv.2
      let types := if types.contains t then types else types ++ [t]
      upsert result key types)
    []

mutual
/-- One value slot of a shape-preserving per-document tree: the JS value
stored at `pararesult[key][type]` in `analyseDocumentterark` — either the
boolean marker `true` or a nested tree object. -/
inductive NestedShape where
  | mark : NestedShape
  | node : ShapeEntries → NestedShape
/-- One level of a shape-preserving tree: an insertion-ordered JS object
mapping each field key to a single `(typeTag, slot)` pair (the inner
object `pararesult[key]` is freshly reset per key, so it always holds
exactly one type tag). -/
inductive ShapeEntries where
  | nil : ShapeEntries
  | cons : String → String → NestedShape → ShapeEntries → ShapeEntries
end

/-- JS property write on a shape level: `pararesult[key] = {}` followed by
`pararesult[key][type] = v` — replace in place or append. -/
def upsertShape : ShapeEntries → String → String → NestedShape → ShapeEntries
  | .nil, key, t, v => .cons key t v .nil
  | .cons k kt kv rest, key, t, v =>
    if k = key then .cons k t v rest else .cons k kt kv (upsertShape rest key t v)

/-- Source `serializeAValue` (lines 260-272), the recursive worker of the
shape-preserving analyzer.  It appends into the caller-supplied buffer
`para` (the shared `recurresult` at the top level, a fresh `{}` at nested
levels).  The guard `type == 'Object' && maxDepth > 1` is realized by the
pattern split on the depth budget: at `maxDepth ≥ 2` objects get a nested
tree built at `maxDepth - 1`, otherwise every value gets the boolean
marker. -/
def serializeAValue : Nat → List (String × JSValue) → ShapeEntries → ShapeEntries
  | md + 2, fields, para =>
    fields.foldl
      (fun para kv =>
        match kv.2 with
        | .vObject sub => upsertShape para kv.1 "Object" (.node (serializeAValue (md + 1) sub .nil))
        | v => upsertShape para kv.1 (varietyTypeOf v) .mark)
      para
  | _, fields, para =>
    fields.foldl (fun para kv => upsertShape para kv.1 (varietyTypeOf kv.2) .mark) para

/-- Value slot of the top-level result map of `analyseDocumentterark`
before the shared buffer is read back: `true`, or a reference to the one
shared `recurresult` object (the same object for every `Object`-typed
top-level field of the document). -/
inductive TopVal where
  | mark : TopVal
  | shared : TopVal

/-- The `for (var key in document)` loop of `analyseDocumentterark`
(lines 274-288), threading the mutable `result` and the one shared
`recurresult` buffer. -/
def adGo (maxDepth : Nat) :
    List (String × JSValue) → List (String × List (String × TopVal)) → ShapeEntries →
    List (String × List (String × TopVal)) × ShapeEntries
  | [], result, recur => (result, recur)
  | (k, v) :: rest, result, recur =>
    let key := normKeyTerark k
    let result := if (assocLookup result key).isSome then result else result ++ [(key, [])]
    match v with
    | .vObject sub =>
      adGo maxDepth rest
        (assocModify result key (fun tm => upsert tm "Object" TopVal.shared))
        (serializeAValue maxDepth sub recur)
    | w =>
      adGo maxDepth rest
        (assocModify result key (fun tm => upsert tm (varietyTypeOf w) TopVal.mark))
        recur

/-- The per-document type map a path carries: type tag to marker/tree. -/
def TypeMap := List (String × NestedShape)

/-- Source `analyseDocumentterark` (lines 255-290).  Every `Object`-typed
top-level field stores a reference to the one shared `recurresult` buffer,
so after the loop every such field's tree is the final state of that
buffer; the returned (purely observable) value substitutes it. -/
def analyseDocumentterark (document : List (String × JSValue)) (maxDepth : Nat) :
    List (String × TypeMap) :=
  let r := adGo maxDepth document [] .nil
  r.1.map
    (fun p =>
      (p.1,
        p.2.map
          (fun tv =>
            (tv.1,
              match tv.2 with
              | TopVal.mark => NestedShape.mark
              | TopVal.shared => NestedShape.node r.2))))

/-- One aggregate entry of the shape-preserving pipeline: per-type
occurrence counters, the total-occurrence counter, and — only when the
entry was created from a document whose type set for the path was exactly
the singleton Object — that first document's type map as `value`. -/
structure InterimEntry where
  types : List (String × Nat)
  totalOccurrences : Nat
  value : Option TypeMap

/-- Source lines 327-333: bump each of the document's type tags in the
existing entry's counters (initializing a newly seen type to 1). -/
def bumpTypes (docTypes : List String) (ts : List (String × Nat)) : List (String × Nat) :=
  docTypes.foldl
    (fun ts t =>
      match assocLookup ts t with
      | some n => upsert ts t (n + 1)
      | none => ts ++ [(t, 1)])
    ts

/-- Source lines 335-347: create a fresh aggregate entry from a document's
type map.  `Object.keys(value) == 'Object'` (array-to-string coercion
joins with commas) holds exactly when the joined key list is the literal
string `Object`; only then is the document's type map stored as `value`. -/
def newEntryTerark (tm : TypeMap) : InterimEntry :=
  let types := tm.map (fun p => (p.1, 1))
  if String.intercalate "," (tm.map Prod.fst) = "Object" then
    { types := types, totalOccurrences := 1, value := some tm }
  else
    { types := types, totalOccurrences := 1, value := none }

/-- One step of the `mergeDocumentterark` loop for a single path of the
document's analysis: existing entries get their counters bumped (their
`value` snapshot is left untouched), unseen paths get a fresh entry
appended. -/
def mergeOneTerark (key : String) (tm : TypeMap) (interim : List (String × InterimEntry)) :
    List (String × InterimEntry) :=
  match assocLookup interim key with
  | some existing =>
    assocModify interim key
      (fun _ =>
        { existing with
          types := bumpTypes (tm.map Prod.fst) existing.types
          totalOccurrences := existing.totalOccurrences + 1 })
  | none => interim ++ [(key, newEntryTerark tm)]

/-- Source `mergeDocumentterark` (lines 322-349): fold one document's
shape-preserving analysis into the running aggregate. -/
def mergeDocumentterark : List (String × TypeMap) → List (String × InterimEntry) →
    List (String × InterimEntry)
  | [], interim => interim
  | (key, tm) :: rest, interim => mergeDocumentterark rest (mergeOneTerark key tm interim)

/-- One flat-pipeline aggregate entry (no shape snapshot). -/
structure FlatEntry where
  types : List (String × Nat)
  totalOccurrences : Nat

/-- One step of the flat `mergeDocument` loop (lines 293-320). -/
def mergeOneFlat (key : String) (dtypes : List String) (interim : List (String × FlatEntry)) :
    List (String × FlatEntry) :=
  match assocLookup interim key with
  | some existing =>
    assocModify interim key
      (fun _ =>
        { existing with
          types := bumpTypes dtypes existing.types
          totalOccurrences := existing.totalOccurrences + 1 })
  | none => interim ++ [(key, { types := dtypes.map (fun t => (t, 1)), totalOccurrences := 1 })]

/-- Source `mergeDocument` (lines 293-320): fold one document's flat
analysis into the running flat aggregate. -/
def mergeDocument : List (String × List String) → List (String × FlatEntry) →
    List (String × FlatEntry)
  | [], interim => interim
  | (key, dtypes) :: rest, interim => mergeDocument rest (mergeOneFlat key dtypes interim)

/-- Source `reduceDocuments` (lines 483-487): one fold step of the flat
pipeline. -/
def reduceDocuments (excludeSubkeys : List String) (maxDepth : Nat)
    (accumulator : List (String × FlatEntry)) (object : Document) :
    List (String × FlatEntry) :=
  mergeDocument (analyseDocument (serializeDoc object maxDepth excludeSubkeys)) accumulator

/-- Source `reduceDocumentsterark` (lines 489-493): one fold step of the
shape-preserving pipeline. -/
def reduceDocumentsterark (maxDepth : Nat)
    (accumulatorterark : List (String × InterimEntry)) (object : Document) :
    List (String × InterimEntry) :=
  mergeDocumentterark (analyseDocumentterark (serializeDocterark object maxDepth) maxDepth)
    accumulatorterark

/-- Source `getKeyType` (lines 352-376): encoding type code per type tag.
`none` models the JS `undefined` that an unlisted key (e.g. a joined
heterogeneous type set) yields. -/
def getKeyType : String → Option String
  | "ObjectId" => some "Fixed"
  | "Boolean" => some "Uint08"
  | "Number" => some "Sint32"
  | "NumberLong" => some "Sint64"
  | "Double" => some "Float64"
  | "Date" => some "Sint64"
  | "Timestamp" => some "Sint64"
  | "BinData" => some "CarBin"
  | "Array" => some "CarBin"
  | "Object" => some "CarBin"
  | "Regex" => some "TwoStrZero"
  | "String" => some "StrZero"
  | "undefined" => some "Binary"
  | "Null" => some ""
  | "DBPointer" => some "StrZero"
  | "JavaScript" => some "StrZero"
  | "Symbol" => some "StrZero"
  | "JSWithScope" => some "StrZero"
  | "MinKey" => some ""
  | "MaxKey" => some ""
  | _ => none

/-- Source `getMongoType` (lines 378-398): domain type name per type tag. -/
def getMongoType : String → Option String
  | "ObjectId" => some "oid"
  | "Boolean" => some "bool"
  | "Number" => some "int"
  | "NumberLong" => some "long"
  | "Double" => some "double"
  | "Date" => some "date"
  | "Timestamp" => some "timestamp"
  | "BinData" => some "bindata"
  | "Array" => some "array"
  | "Object" => some "object"
  | "Regex" => some "regex"
  | "String" => some "string"
  | "DBPointer" => some "string"
  | "JavaScript" => some "string"
  | "Symbol" => some "string"
  | "JSWithScope" => some "string"
  | _ => none

/-- One RowSchema column object: `{type, mongoType?, length?, nested?}`.
Absent JS properties (and `undefined` values from table misses) are
`none`. -/
inductive Column where
  | mk : Option String → Option String → Option Nat → Option (List (String × Column)) → Column

/-- Encoding type code of a column. -/
def Column.ctype : Column → Option String
  | .mk t _ _ _ => t

/-- Domain type name of a column. -/
def Column.mongoType : Column → Option String
  | .mk _ m _ _ => m

/-- Fixed byte length of a column (only ever `some 12`). -/
def Column.clength : Column → Option Nat
  | .mk _ _ l _ => l

/-- Nested column tree of a column. -/
def Column.nested : Column → Option (List (String × Column))
  | .mk _ _ _ n => n

/-- The reserved terminal column `{type: "CarBin"}` (source lines 444 and
454): only the `type` property is set. -/
def carbinColumn : Column := .mk (some "CarBin") none none none

mutual
/-- Source `serializeCValue` (lines 404-416), restricted to one level's
entries: every key of the stored shape level becomes a column
`{type, mongoType}` from its single type tag, and `Object`-tagged keys
additionally get a `nested` property from recursing into their slot. -/
def serializeCValue : ShapeEntries → List (String × Column)
  | .nil => []
  | .cons key t shape rest =>
    let col :=
      if t = "Object" then Column.mk (getKeyType t) (getMongoType t) none (some (serializeCShape shape))
      else Column.mk (getKeyType t) (getMongoType t) none none
    (key, col) :: serializeCValue rest
/-- Recursing into a slot: a tree recurses into its entries; the boolean
marker `true` (an `Object` seen at exhausted depth budget) makes the JS
`for..in` visit nothing, leaving the freshly assigned empty
`pararesult["nested"] = {}`. -/
def serializeCShape : NestedShape → List (String × Column)
  | .mark => []
  | .node entries => serializeCValue entries
end

/-- Joined type-key string of an aggregate entry, source line 421:
`Object.keys(entry.types).toString()` (JS arrays stringify comma-joined). -/
def typeKeysStr (e : InterimEntry) : String :=
  String.intercalate "," (e.types.map Prod.fst)

/-- The tree level behind `entry["value"]['Object']` (source lines 428 and
441).  On every reachable aggregate the accesses are well-defined exactly
when `typeKeysStr e = "Object"`; the `nil` defaults cover the states the
source would fault on and are never exercised by the claims. -/
def entryTree (e : InterimEntry) : ShapeEntries :=
  match e.value with
  | some tm =>
    match assocLookup tm "Object" with
    | some (.node entries) => entries
    | some .mark => .nil
    | none => .nil
  | none => .nil

/-- The `for (var key in interimResultsstrc)` loop of `convertSchema`
(lines 418-453), threading the `columns` map, the `nestedschemaset` sink
and the running 1-based `nestedindex`. -/
def convertLoop (documentsCount : Nat) :
    List (String × InterimEntry) → List (String × Column) →
    List (String × List (String × Column)) → Nat →
    List (String × Column) × List (String × List (String × Column)) × Nat
  | [], columns, nss, idx => (columns, nss, idx)
  | (key, entry) :: rest, columns, nss, idx =>
    let typeKeys := typeKeysStr entry
    if entry.totalOccurrences = documentsCount then
      let col :=
        if typeKeys = "ObjectId" then
          Column.mk (getKeyType typeKeys) (getMongoType typeKeys) (some 12) none
        else if typeKeys = "Object" then
          Column.mk (getKeyType typeKeys) (getMongoType typeKeys) none
            (some (serializeCValue (entryTree entry)))
        else Column.mk (getKeyType typeKeys) (getMongoType typeKeys) none none
      convertLoop documentsCount rest (upsert columns key col) nss idx
    else
      if typeKeys = "Object" then
        convertLoop documentsCount rest columns
          (nss ++ [(toString idx, serializeCValue (entryTree entry) ++ [("$$", carbinColumn)])])
          (idx + 1)
      else convertLoop documentsCount rest columns nss idx

/-- Source `convertSchema` (lines 351-456).  Returns the RowSchema columns
and the NestedSchemaSet (built by side effect on the `nestedschemaset`
sink in the source, passed in freshly empty at the call site, line 527).
The fourth source argument `interimResults` — the flat pipeline's
aggregate — is accepted and never read, exactly as in the source. -/
def convertSchema (interimResultsstrc : List (String × InterimEntry)) (documentsCount : Nat)
    (interimResults : List (String × FlatEntry)) :
    List (String × Column) × List (String × List (String × Column)) :=
  let r := convertLoop documentsCount interimResultsstrc [] [] 1
  (upsert r.1 "$$" carbinColumn, r.2.1)

/-- One declared index as read from the collection: name, key pattern
(field to direction value) and the raw `unique` flag (`vUndefined` when
absent). -/
structure MongoIndex where
  name : String
  key : List (String × JSValue)
  unique : JSValue

/-- One translated index descriptor. -/
structure IndexDescriptor where
  fields : String
  ordered : Bool
  unique : Bool
deriving DecidableEq

/-- JS strict equality with literal `true` (source lines 545-547:
`if (unique !== true) unique = false`). -/
def jsIsTrue : JSValue → Bool
  | .vBool true => true
  | _ => false

/-- JS strict equality with the string `"hashed"` (source line 550). -/
def jsIsHashed : JSValue → Bool
  | .vString s => s = "hashed"
  | _ => false

/-- Source lines 539-542: the `choice` lookup `{"1": "", "-1": "-"}`
applied to the direction value coerced to a property key; unlisted
directions yield JS `undefined`, which string-concatenates as
`"undefined"`. -/
def choiceStr : JSValue → String
  | .vNumber m => if m = 1 then "" else if m = -1 then "-" else "undefined"
  | .vString s => if s = "1" then "" else if s = "-1" then "-" else "undefined"
  | _ => "undefined"

/-- The `for (var key in field)` loop of `generateIndex` (lines 548-556):
push one token per key-pattern field, clearing `ordered` on hashed
fields. -/
def indexFieldStep (acc : List String × Bool) (fk : String × JSValue) : List String × Bool :=
  if jsIsHashed fk.2 then (acc.1 ++ [fk.1], false)
  else (acc.1 ++ [choiceStr fk.2 ++ fk.1], acc.2)

/-- Translation of a single index (body of the loop at lines 535-570). -/
def generateIndexOne (idx : MongoIndex) : IndexDescriptor :=
  if idx.name ≠ "_id_" then
    let pr := idx.key.foldl indexFieldStep ([], true)
    { fields := String.intercalate "," pr.1, ordered := pr.2, unique := jsIsTrue idx.unique }
  else { fields := "_id", ordered := true, unique := true }

/-- Source `generateIndex` (lines 533-572): translate the declared index
list in enumeration order. -/
def generateIndex (originalindex : List MongoIndex) : List IndexDescriptor :=
  originalindex.map generateIndexOne

/-- The error raised at lines 53-57 when no `collection` value is supplied
(apostrophes and the help URL of the source text elided; the enumerated
collection-name list is the part under scrutiny). -/
def missingCollectionMsg (collNames : String) : String :=
  "You have to supply a collection variable. " ++
    "Possible collection options for database specified: " ++ collNames ++ "."

/-- The error raised at lines 59-62 when the named collection has no
documents (or does not exist). -/
def emptyCollectionMsg (c : String) (collNames : String) : String :=
  "The collection specified (" ++ c ++ ") in the database specified does not exist or is empty. " ++
    "Possible collection options for database specified: " ++ collNames ++ "."

/-- The printed Result Document (lines 581-593):
`{CheckMongoType, RowSchema, TableIndex?, NestedSchemaSet?}`, the optional
members present only when non-empty. -/
structure Results where
  checkMongoType : Bool
  rowSchema : List (String × Column)
  tableIndex : Option (List IndexDescriptor)
  nestedSchemaSet : Option (List (String × List (String × Column)))

/-- The active run (lines 52-62 validation, then lines 518-593): the
collection check aborts — raising the error before any scan — and
otherwise both pipelines fold the same document sequence, the Schema
Converter and Index Translator run, and the Result Document is assembled.
The database is abstracted as the list of collection names, a
documents-per-collection map and an indexes-per-collection map; an
`Except.error` outcome models the raised abort with nothing printed. -/
def runVariety (collection : Option String) (collectionNames : List String)
    (docsOf : String → List Document) (indexesOf : String → List MongoIndex)
    (maxDepth : Nat) (excludeSubkeys : List String) : Except String Results :=
  let collNames := String.intercalate ", " collectionNames
  match collection with
  | none => .error (missingCollectionMsg collNames)
  | some c =>
    if (docsOf c).length = 0 then .error (emptyCollectionMsg c collNames)
    else
      let docs := docsOf c
      let ex := mkExcludeSubkeys excludeSubkeys
      let interimResults := docs.foldl (fun acc d => reduceDocuments ex maxDepth acc d) []
      let interimResultsterark := docs.foldl (fun acc d => reduceDocumentsterark maxDepth acc d) []
      let r := convertSchema interimResultsterark docs.length interimResults
      let tableindex := generateIndex (indexesOf c)
      .ok
        { checkMongoType := true
          rowSchema := r.1
          tableIndex := if tableindex.length ≠ 0 then some tableindex else none
          nestedSchemaSet := if r.2.length ≠ 0 then some r.2 else none }

/-- Ordinal-keyed enumeration: the NestedSchemaSet registration order,
`nestedindex.toString()` keys counting up from the given start. -/
def ordinalTag {α : Type} : Nat → List α → List (String × α)
  | _, [] => []
  | i, t :: ts => (toString i, t) :: ordinalTag (i + 1) ts

/-- The column tree registered for one sparse Object entry: its converted
level plus the trailing terminal column (source lines 441-444). -/
def sparseTree (e : InterimEntry) : List (String × Column) :=
  serializeCValue (entryTree e) ++ [("$$", carbinColumn)]

/-- The aggregate entries that the converter registers in the
NestedSchemaSet, in discovery order: not wholly present and sole joined
type key `Object` (mirrors the branch structure of lines 436-452). -/
def sparseObjEntries (n : Nat) : List (String × InterimEntry) → List InterimEntry
  | [] => []
  | (_, e) :: rest =>
    if e.totalOccurrences = n then sparseObjEntries n rest
    else if typeKeysStr e = "Object" then e :: sparseObjEntries n rest
    else sparseObjEntries n rest

/-- The keys of the aggregate entries that receive a RowSchema column:
exactly the wholly present ones, in aggregate order. -/
def fullKeys (n : Nat) : List (String × InterimEntry) → List String
  | [] => []
  | (k, e) :: rest =>
    if e.totalOccurrences = n then k :: fullKeys n rest else fullKeys n rest

/-- A direction value the claim speaks about: ascending `1`, descending
`-1`, or the string `"hashed"`. -/
def simpleDir : JSValue → Bool
  | .vNumber m => m = 1 || m = -1
  | .vString s => s = "hashed"
  | _ => false

/-- Every direction of every key pattern in the index list is one of the
three claimed direction values. -/
def allSimpleDirs (idxs : List MongoIndex) : Bool :=
  idxs.all (fun idx => idx.key.all (fun fk => simpleDir fk.2))

/-- Modelled from the claim wording (refinement target for C6): one field
token — ascending fields appear bare, descending fields are prefixed with
a minus sign, hashed fields appear bare. -/
def specToken (fk : String × JSValue) : String :=
  if jsIsHashed fk.2 then fk.1
  else
    match fk.2 with
    | .vNumber m => if m = -1 then "-" ++ fk.1 else fk.1
    | _ => fk.1

/-- Modelled from the claim wording (refinement target for C6): the index
named for the primary identifier always yields the fixed descriptor; any
other index comma-joins its field tokens in declared order, is ordered
exactly when no field is hashed, and is unique exactly when the source
uniqueness flag is literally true. -/
def translateIndexSpec (idx : MongoIndex) : IndexDescriptor :=
  if idx.name = "_id_" then { fields := "_id", ordered := true, unique := true }
  else
    { fields := String.intercalate "," (idx.key.map specToken)
      ordered := idx.key.all (fun fk => !jsIsHashed fk.2)
      unique := jsIsTrue idx.unique }

/-- Witness aggregate entry: a key seen 7 times out of 10 as a String. -/
def wStringEntry : InterimEntry := ⟨[("String", 7)], 7, none⟩

/-- Witness aggregate entry: a key seen 7 times out of 10 as a lone
Object with one Number subfield. -/
def wObjectEntry : InterimEntry :=
  ⟨[("Object", 7)], 7, some [("Object", .node (.cons "z" "Number" .mark .nil))]⟩

/-- Witness aggregate entry: a key seen in all 10 documents as ObjectId. -/
def wIdEntry : InterimEntry := ⟨[("ObjectId", 10)], 10, none⟩

/-- Witness aggregate for the converter theorems: one sparse String key,
one sparse Object key, one wholly present key, scanned count 10. -/
def wAggregate : List (String × InterimEntry) :=
  [("k1", wStringEntry), ("k2", wObjectEntry), ("k3", wIdEntry)]

theorem assocLookup_upsert_self {α : Type} (m : List (String × α)) (k : String) (v : α) :
    assocLookup (upsert m k v) k = some v := by
  induction m with
  | nil => simp [upsert, assocLookup]
  | cons p rest ih =>
    obtain ⟨pk, pv⟩ := p
    by_cases h : pk = k
    · simp [upsert, assocLookup, h]
    · simp [upsert, assocLookup, h, ih]

theorem assocLookup_eq_none_of_not_mem {α : Type} (m : List (String × α)) (k : String)
    (h : k ∉ m.map Prod.fst) : assocLookup m k = none := by
  induction m with
  | nil => simp [assocLookup]
  | cons p rest ih =>
    obtain ⟨pk, pv⟩ := p
    simp only [List.map_cons, List.mem_cons] at h
    push_neg at h
    have hne : ¬pk = k := fun hh => h.1 hh.symm
    simp [assocLookup, hne, ih h.2]

theorem upsert_eq_append {α : Type} (m : List (String × α)) (k : String) (v : α)
    (h : assocLookup m k = none) : upsert m k v = m ++ [(k, v)] := by
  induction m with
  | nil => simp [upsert]
  | cons p rest ih =>
    obtain ⟨pk, pv⟩ := p
    by_cases hk : pk = k
    · simp [assocLookup, hk] at h
    · simp only [assocLookup, hk, if_false] at h
      simp [upsert, hk, ih h]

theorem assocLookup_append_of_some {α : Type} (m m2 : List (String × α)) (k : String) (v : α)
    (h : assocLookup m k = some v) : assocLookup (m ++ m2) k = some v := by
  induction m with
  | nil => simp [assocLookup] at h
  | cons p rest ih =>
    obtain ⟨pk, pv⟩ := p
    by_cases hk : pk = k
    · simp_all [assocLookup]
    · simp only [assocLookup, hk, if_false] at h
      simp [assocLookup, hk, ih h]

theorem assocLookup_append_of_none {α : Type} (m m2 : List (String × α)) (k : String)
    (h : assocLookup m k = none) : assocLookup (m ++ m2) k = assocLookup m2 k := by
  induction m with
  | nil => simp [assocLookup]
  | cons p rest ih =>
    obtain ⟨pk, pv⟩ := p
    by_cases hk : pk = k
    · simp [assocLookup, hk] at h
    · simp only [assocLookup, hk, if_false] at h
      simp [assocLookup, hk, ih h]

theorem assocLookup_assocModify_self {α : Type} (m : List (String × α)) (k : String)
    (f : α → α) (v : α) (h : assocLookup m k = some v) :
    assocLookup (assocModify m k f) k = some (f v) := by
  induction m with
  | nil => simp [assocLookup] at h
  | cons p rest ih =>
    obtain ⟨pk, pv⟩ := p
    by_cases hk : pk = k
    · simp only [assocLookup, hk, if_true, Option.some.injEq] at h
      simp [assocModify, assocLookup, hk, h]
    · simp only [assocLookup, hk, if_false] at h
      simp [assocModify, assocLookup, hk, ih h]

theorem assocLookup_assocModify_ne {α : Type} (m : List (String × α)) (k k0 : String)
    (f : α → α) (h : k ≠ k0) : assocLookup (assocModify m k f) k0 = assocLookup m k0 := by
  induction m with
  | nil => simp [assocModify]
  | cons p rest ih =>
    obtain ⟨pk, pv⟩ := p
    by_cases hk : pk = k
    · subst hk
      simp [assocModify, assocLookup, h, ih]
    · simp [assocModify, assocLookup, hk, ih]

theorem ordinalTag_mem {α : Type} (i : Nat) (ts : List α) (p : String × α)
    (h : p ∈ ordinalTag i ts) : p.2 ∈ ts := by
  induction ts generalizing i with
  | nil => simp [ordinalTag] at h
  | cons t rest ih =>
    simp only [ordinalTag, List.mem_cons] at h
    rcases h with h | h
    · subst h; simp
    · exact List.mem_cons_of_mem _ (ih _ h)

theorem getLast?_append_single {α : Type} (l : List α) (a : α) :
    (l ++ [a]).getLast? = some a := by
  rw [List.getLast?_append_cons]
  rfl

/-- Claim C7: the type classifier is a total pure function from values to
type tags satisfying the stated equations — null values, arrays, absent
values, strings, numbers, the four BSON wrappers, and any other keyed
record classify as stated, and classification never fails (the function
is total by construction). -/
theorem varietyTypeOf_table :
    varietyTypeOf .vNull = "null" ∧
    (∀ es, varietyTypeOf (.vArray es) = "Array") ∧
    varietyTypeOf .vUndefined = "undefined" ∧
    (∀ s, varietyTypeOf (.vString s) = "String") ∧
    (∀ n, varietyTypeOf (.vNumber n) = "Number") ∧
    varietyTypeOf .vDate = "Date" ∧
    varietyTypeOf .vNumberLong = "NumberLong" ∧
    varietyTypeOf .vObjectId = "ObjectId" ∧
    varietyTypeOf .vBinData = "BinData" ∧
    (∀ fields, varietyTypeOf (.vObject fields) = "Object") :=
  ⟨rfl, fun _ => rfl, rfl, fun _ => rfl, fun _ => rfl, rfl, rfl, rfl, rfl, fun _ => rfl⟩

/-- Claim C8: the Schema Converter's output — the RowSchema columns and
the NestedSchemaSet — does not depend on the flat pipeline's aggregate
argument: two calls identical in the shape-preserving aggregate and
document count but with arbitrary flat aggregates produce equal results
(the parameter is accepted and never read, as in the source). -/
theorem convertSchema_ignores_flat (strc : List (String × InterimEntry)) (n : Nat)
    (flatA flatB : List (String × FlatEntry)) :
    convertSchema strc n flatA = convertSchema strc n flatB := rfl

/-- Claim C10: the flat flattener records an entry for every visited node,
not only leaves: for every depth budget of at least 2, flattening the
document with a at b at 1 produces both the intermediate path a mapped to
its raw unflattened value and the leaf path a.b mapped to 1. -/
theorem serializeDoc_records_intermediate (md : Nat) (h : 2 ≤ md) :
    serializeDoc [("a", .vObject [("b", .vNumber 1)])] md [] =
      [("a", .vObject [("b", .vNumber 1)]), ("a.b", .vNumber 1)] := by
  obtain ⟨m, rfl⟩ := Nat.exists_eq_add_of_le' h
  cases m with
  | zero => rfl
  | succ j => rfl

/-- Witness for C10 at the concrete depth budget 2. -/
theorem serializeDoc_records_intermediate_witness :
    2 ≤ 2 ∧
      serializeDoc [("a", .vObject [("b", .vNumber 1)])] 2 [] =
        [("a", .vObject [("b", .vNumber 1)]), ("a.b", .vNumber 1)] :=
  ⟨le_refl 2, serializeDoc_records_intermediate 2 (le_refl 2)⟩

theorem serializeGo_excluded (ex : List String) (md : Nat) (doc : JSValue) (pk : String)
    (res : List (String × JSValue)) (h : memberStr ex (stripArraySegs pk) = true) :
    serializeGo ex md doc pk res = res := by
  match md with
  | 0 => simp [serializeGo, h]
  | 1 => simp [serializeGo, h]
  | m + 2 => simp [serializeGo, h]

/-- Claim C2 counterexample: with excludeSubkeys containing a.b, the path
a.b itself does appear in the flattened output (mapped to its raw value) —
it is recorded by the parent level's loop before the recursion into it is
cut off; the claim asserts that in particular a.b itself never appears. -/
theorem serializeDoc_exclude_counterexample :
    (serializeDoc [("a", .vObject [("b", .vObject [("c", .vNumber 1)])])] 99
        (mkExcludeSubkeys ["a.b"])).map Prod.fst = ["a", "a.b"] ∧
      "a.b" ∈ (serializeDoc [("a", .vObject [("b", .vObject [("c", .vNumber 1)])])] 99
        (mkExcludeSubkeys ["a.b"])).map Prod.fst :=
  ⟨rfl, by decide⟩

/-- Claim C2 as amended: an excluded accumulated path has its strict
descendants omitted and never visited, but the excluded path itself is
still recorded by its parent's loop, mapped to its raw unflattened value:
for every depth budget of at least 3, flattening a at b at c at 1 with
excludeSubkeys containing a.b yields exactly the paths a and a.b (a.b
carried with its raw subtree; nothing below a.b appears). -/
theorem serializeDoc_exclude_prunes_descendants (md : Nat) (h : 3 ≤ md) :
    serializeDoc [("a", .vObject [("b", .vObject [("c", .vNumber 1)])])] md
        (mkExcludeSubkeys ["a.b"]) =
      [("a", .vObject [("b", .vObject [("c", .vNumber 1)])]),
        ("a.b", .vObject [("c", .vNumber 1)])] := by
  obtain ⟨m, rfl⟩ := Nat.exists_eq_add_of_le' h
  cases m with
  | zero => rfl
  | succ j => rfl

/-- Witness for the amended C2 at the concrete depth budget 99 (the
configuration default). -/
theorem serializeDoc_exclude_prunes_descendants_witness :
    3 ≤ 99 ∧
      serializeDoc [("a", .vObject [("b", .vObject [("c", .vNumber 1)])])] 99
          (mkExcludeSubkeys ["a.b"]) =
        [("a", .vObject [("b", .vObject [("c", .vNumber 1)])]),
          ("a.b", .vObject [("c", .vNumber 1)])] :=
  ⟨by decide, serializeDoc_exclude_prunes_descendants 99 (by decide)⟩

/-- Claim C4: the claim states that each top-level Object-typed field maps
to a nested tree containing exactly its own subfields, with sibling trees
not aliased.  The code instead reuses the one shared recurresult buffer
across sibling traversals (the spec itself instructs reimplementations to
isolate each field's result), so both fields of the failing document
receive the same tree holding the union of both fields' subkeys. -/
theorem analyseDocumentterark_shared_buffer :
    analyseDocumentterark
        [("p", .vObject [("x", .vNumber 1)]), ("q", .vObject [("y", .vNumber 2)])] 2 =
      [("p", [("Object", .node (.cons "x" "Number" .mark (.cons "y" "Number" .mark .nil)))]),
        ("q", [("Object", .node (.cons "x" "Number" .mark (.cons "y" "Number" .mark .nil)))])] ∧
      ¬analyseDocumentterark
          [("p", .vObject [("x", .vNumber 1)]), ("q", .vObject [("y", .vNumber 2)])] 2 =
        [("p", [("Object", .node (.cons "x" "Number" .mark .nil))]),
          ("q", [("Object", .node (.cons "y" "Number" .mark .nil))])] :=
  ⟨rfl, fun h =>
    (by simp :
      ¬([("p", [("Object",
            NestedShape.node (.cons "x" "Number" .mark (.cons "y" "Number" .mark .nil)))]),
          ("q", [("Object",
            NestedShape.node (.cons "x" "Number" .mark (.cons "y" "Number" .mark .nil)))])] =
        [("p", [("Object", NestedShape.node (.cons "x" "Number" .mark .nil))]),
          ("q", [("Object", NestedShape.node (.cons "y" "Number" .mark .nil))])]))
      h⟩

/-- Claim C1 counterexample: folding two documents that both present path
a as a lone Object (first with subfield x, then with subfield y), the
aggregate entry's stored snapshot equals the first document's tree — not
the tree of the last processed document, which the claim asserts. -/
theorem mergeTerark_snapshot_counterexample :
    (assocLookup
          ([[("a", JSValue.vObject [("x", .vNumber 1)])],
              [("a", JSValue.vObject [("y", .vNumber 2)])]].foldl
            (fun acc d => reduceDocumentsterark 99 acc d) [])
          "a").map InterimEntry.value
        = some (some [("Object", NestedShape.node (.cons "x" "Number" .mark .nil))]) ∧
      analyseDocumentterark (serializeDocterark [("a", JSValue.vObject [("y", .vNumber 2)])] 99) 99
        = [("a", [("Object", NestedShape.node (.cons "y" "Number" .mark .nil))])] ∧
      ¬(assocLookup
            ([[("a", JSValue.vObject [("x", .vNumber 1)])],
                [("a", JSValue.vObject [("y", .vNumber 2)])]].foldl
              (fun acc d => reduceDocumentsterark 99 acc d) [])
            "a").map InterimEntry.value
        = some (some [("Object", NestedShape.node (.cons "y" "Number" .mark .nil))]) :=
  ⟨rfl, rfl, fun h =>
    (by simp :
      ¬(some (some [("Object", NestedShape.node (.cons "x" "Number" .mark .nil))]) =
        some (some [("Object", NestedShape.node (.cons "y" "Number" .mark .nil))]))) h⟩

theorem mergeOneTerark_lookup_value (key : String) (tm : TypeMap)
    (interim : List (String × InterimEntry)) (key0 : String)
    (h : (assocLookup interim key0).isSome = true) :
    (assocLookup (mergeOneTerark key tm interim) key0).map InterimEntry.value =
      (assocLookup interim key0).map InterimEntry.value := by
  obtain ⟨e0, he0⟩ := Option.isSome_iff_exists.mp h
  unfold mergeOneTerark
  cases hk : assocLookup interim key with
  | some existing =>
    by_cases hkey : key = key0
    · subst hkey
      rw [he0] at hk
      injection hk with hk
      subst hk
      rw [assocLookup_assocModify_self _ _ _ e0 he0, he0]
      rfl
    · rw [assocLookup_assocModify_ne _ _ _ _ hkey]
  | none =>
    by_cases hkey : key = key0
    · subst hkey
      rw [he0] at hk
      cases hk
    · rw [assocLookup_append_of_some _ _ _ e0 he0, he0]

theorem mergeDocumentterark_preserves_value (docResult : List (String × TypeMap))
    (interim : List (String × InterimEntry)) (key0 : String)
    (h : (assocLookup interim key0).isSome = true) :
    (assocLookup (mergeDocumentterark docResult interim) key0).map InterimEntry.value =
      (assocLookup interim key0).map InterimEntry.value := by
  induction docResult generalizing interim with
  | nil => rfl
  | cons p rest ih =>
    obtain ⟨key, tm⟩ := p
    obtain ⟨e0, he0⟩ := Option.isSome_iff_exists.mp h
    have hstep := mergeOneTerark_lookup_value key tm interim key0 h
    have hsome : (assocLookup (mergeOneTerark key tm interim) key0).isSome = true := by
      rw [he0] at hstep
      obtain ⟨e1, he1, _⟩ := Option.map_eq_some'.mp hstep
      rw [he1]
      rfl
    simp only [mergeDocumentterark]
    rw [ih (mergeOneTerark key tm interim) hsome, hstep]

theorem mergeDocumentterark_creates_value (key : String) (tm : TypeMap)
    (rest : List (String × TypeMap)) (interim : List (String × InterimEntry))
    (h : assocLookup interim key = none) :
    (assocLookup (mergeDocumentterark ((key, tm) :: rest) interim) key).map InterimEntry.value =
      some (if String.intercalate "," (tm.map Prod.fst) = "Object" then some tm else none) := by
  have hstep : assocLookup (mergeOneTerark key tm interim) key = some (newEntryTerark tm) := by
    unfold mergeOneTerark
    rw [h, assocLookup_append_of_none _ _ _ h]
    simp [assocLookup]
  simp only [mergeDocumentterark]
  rw [mergeDocumentterark_preserves_value rest _ key (by rw [hstep]; rfl), hstep]
  unfold newEntryTerark
  split <;> rfl

/-- Claim C1 as amended: the snapshot is written only when the aggregate
entry is first created — merging a document into an aggregate that
already holds an entry for the path never changes that entry's stored
snapshot (first-write-wins), and a path first seen through a document
whose type map has the sole joined key Object gets that first document's
type map as its snapshot (and no snapshot otherwise).  The aggregate thus
reflects the first-seen nested shape, not the last-seen one. -/
theorem mergeTerark_snapshot_first_write (docResult : List (String × TypeMap))
    (interim : List (String × InterimEntry)) (key : String) (tm : TypeMap)
    (rest : List (String × TypeMap)) :
    ((assocLookup interim key).isSome = true →
      (assocLookup (mergeDocumentterark docResult interim) key).map InterimEntry.value =
        (assocLookup interim key).map InterimEntry.value) ∧
    (assocLookup interim key = none →
      (assocLookup (mergeDocumentterark ((key, tm) :: rest) interim) key).map
          InterimEntry.value =
        some (if String.intercalate "," (tm.map Prod.fst) = "Object" then some tm else none)) :=
  ⟨mergeDocumentterark_preserves_value docResult interim key,
    mergeDocumentterark_creates_value key tm rest interim⟩

/-- Witness shape snapshot for the C1 theorems. -/
def c1Tm : TypeMap := [("Object", NestedShape.node (.cons "y" "Number" .mark .nil))]

/-- Witness aggregate for the C1 theorems: one existing entry for path a
with a stored snapshot. -/
def c1Interim : List (String × InterimEntry) :=
  [("a", ⟨[("Object", 1)], 1, some [("Object", NestedShape.node (.cons "x" "Number" .mark .nil))]⟩)]

/-- Witness for the amended C1: merging a further document carrying path a
leaves the stored snapshot untouched, and a first sighting of path b as a
lone Object stores that document's type map. -/
theorem mergeTerark_snapshot_first_write_witness :
    ((assocLookup (mergeDocumentterark [("a", c1Tm)] c1Interim) "a").map InterimEntry.value =
        (assocLookup c1Interim "a").map InterimEntry.value) ∧
      ((assocLookup (mergeDocumentterark [("b", c1Tm)] c1Interim) "b").map InterimEntry.value =
        some (if String.intercalate "," (c1Tm.map Prod.fst) = "Object" then some c1Tm else none)) :=
  ⟨(mergeTerark_snapshot_first_write [("a", c1Tm)] c1Interim "a" c1Tm []).1 rfl,
    (mergeTerark_snapshot_first_write [] c1Interim "b" c1Tm []).2 rfl⟩

theorem convertLoop_nss (n : Nat) (strc : List (String × InterimEntry))
    (cols : List (String × Column)) (nss : List (String × List (String × Column))) (idx : Nat) :
    (convertLoop n strc cols nss idx).2.1 =
      nss ++ ordinalTag idx ((sparseObjEntries n strc).map sparseTree) := by
  induction strc generalizing cols nss idx with
  | nil => simp [convertLoop, sparseObjEntries, ordinalTag]
  | cons p rest ih =>
    obtain ⟨key, entry⟩ := p
    by_cases hocc : entry.totalOccurrences = n
    · simp only [convertLoop, sparseObjEntries, hocc, if_true]
      exact ih _ _ _
    · by_cases htk : typeKeysStr entry = "Object"
      · simp only [convertLoop, sparseObjEntries, hocc, htk, if_true, if_false]
        rw [ih _ _ _]
        simp [ordinalTag, sparseTree, List.append_assoc]
      · simp only [convertLoop, sparseObjEntries, hocc, htk, if_false]
        exact ih _ _ _

theorem convertLoop_cols (n : Nat) (strc : List (String × InterimEntry))
    (cols : List (String × Column)) (nss : List (String × List (String × Column))) (idx : Nat)
    (hfresh : ∀ k, k ∈ strc.map Prod.fst → assocLookup cols k = none)
    (hnodup : (strc.map Prod.fst).Nodup) :
    ((convertLoop n strc cols nss idx).1).map Prod.fst = cols.map Prod.fst ++ fullKeys n strc := by
  induction strc generalizing cols nss idx with
  | nil => simp [convertLoop, fullKeys]
  | cons p rest ih =>
    obtain ⟨key, entry⟩ := p
    have hkey : assocLookup cols key = none := hfresh key (by simp)
    simp only [List.map_cons, List.nodup_cons] at hnodup
    by_cases hocc : entry.totalOccurrences = n
    · simp only [convertLoop, fullKeys, hocc, if_true]
      rw [upsert_eq_append _ _ _ hkey]
      rw [ih _ _ _
        (fun k hk => by
          rw [assocLookup_append_of_none _ _ _ (hfresh k (List.mem_cons_of_mem _ hk))]
          have hne : ¬key = k := fun he => hnodup.1 (he ▸ hk)
          simp [assocLookup, hne])
        hnodup.2]
      simp
    · by_cases htk : typeKeysStr entry = "Object"
      · simp only [convertLoop, fullKeys, hocc, htk, if_true, if_false]
        exact ih _ _ _ (fun k hk => hfresh k (List.mem_cons_of_mem _ hk)) hnodup.2
      · simp only [convertLoop, fullKeys, hocc, htk, if_false]
        exact ih _ _ _ (fun k hk => hfresh k (List.mem_cons_of_mem _ hk)) hnodup.2

theorem mem_fullKeys (n : Nat) (strc : List (String × InterimEntry)) (k : String)
    (h : k ∈ fullKeys n strc) : k ∈ strc.map Prod.fst := by
  induction strc with
  | nil => simp [fullKeys] at h
  | cons p rest ih =>
    obtain ⟨pk, pe⟩ := p
    by_cases hocc : pe.totalOccurrences = n
    · simp only [fullKeys, hocc, if_true, List.mem_cons] at h
      rcases h with h | h
      · simp [h]
      · exact List.mem_cons_of_mem _ (ih h)
    · simp only [fullKeys, hocc, if_false] at h
      exact List.mem_cons_of_mem _ (ih h)

theorem not_mem_fullKeys (n : Nat) (strc : List (String × InterimEntry)) (k : String)
    (e : InterimEntry) (hnodup : (strc.map Prod.fst).Nodup) (hmem : (k, e) ∈ strc)
    (hocc : e.totalOccurrences ≠ n) : k ∉ fullKeys n strc := by
  induction strc with
  | nil => simp at hmem
  | cons p rest ih =>
    obtain ⟨pk, pe⟩ := p
    simp only [List.map_cons, List.nodup_cons] at hnodup
    rcases List.mem_cons.mp hmem with h | h
    · injection h with hk he
      subst hk
      subst he
      simp only [fullKeys, hocc, if_false]
      intro hin
      exact hnodup.1 (mem_fullKeys n rest k hin)
    · by_cases hkpk : k = pk
      · subst hkpk
        exact absurd (List.mem_map_of_mem Prod.fst h) hnodup.1
      · by_cases hpocc : pe.totalOccurrences = n
        · simp only [fullKeys, hpocc, if_true, List.mem_cons]
          push_neg
          exact ⟨hkpk, ih hnodup.2 h⟩
        · simp only [fullKeys, hpocc, if_false]
          exact ih hnodup.2 h

/-- Claim C5: for every aggregate entry not present in every document, a
sole joined type key Object registers its column tree (with the trailing
terminal entry) in the NestedSchemaSet under consecutive 1-based ordinal
string keys in discovery order and contributes no RowSchema column, and
any other such entry appears in neither output: the NestedSchemaSet is
exactly the ordinal enumeration of the sparse Object entries' trees, the
RowSchema keys are exactly the wholly present keys plus the terminal
column, and no partially present key is a RowSchema key. -/
theorem convertSchema_sparse_entries (strc : List (String × InterimEntry)) (n : Nat)
    (flat : List (String × FlatEntry)) (hnodup : (strc.map Prod.fst).Nodup)
    (hdd : "$$" ∉ strc.map Prod.fst) :
    (convertSchema strc n flat).2 = ordinalTag 1 ((sparseObjEntries n strc).map sparseTree) ∧
      (convertSchema strc n flat).1.map Prod.fst = fullKeys n strc ++ ["$$"] ∧
      ∀ k e, (k, e) ∈ strc → e.totalOccurrences ≠ n →
        k ∉ (convertSchema strc n flat).1.map Prod.fst := by
  have hcols : ((convertLoop n strc [] [] 1).1).map Prod.fst = fullKeys n strc := by
    have := convertLoop_cols n strc [] [] 1 (fun k _ => rfl) hnodup
    simpa using this
  have hterm : assocLookup (convertLoop n strc [] [] 1).1 "$$" = none := by
    apply assocLookup_eq_none_of_not_mem
    rw [hcols]
    intro hin
    exact hdd (mem_fullKeys n strc "$$" hin)
  have hkeys : (convertSchema strc n flat).1.map Prod.fst = fullKeys n strc ++ ["$$"] := by
    show ((upsert (convertLoop n strc [] [] 1).1 "$$" carbinColumn).map Prod.fst) = _
    rw [upsert_eq_append _ _ _ hterm]
    simp [hcols]
  refine ⟨?_, hkeys, ?_⟩
  · show (convertLoop n strc [] [] 1).2.1 = _
    simpa using convertLoop_nss n strc [] [] 1
  · intro k e hmem hocc hin
    rw [hkeys] at hin
    rcases List.mem_append.mp hin with hin | hin
    · exact not_mem_fullKeys n strc k e hnodup hmem hocc hin
    · rw [List.mem_singleton.mp hin] at hmem
      exact hdd (List.mem_map_of_mem Prod.fst hmem)

/-- Witness for C5 on a three-entry aggregate (sparse String key, sparse
Object key, wholly present key; ten documents scanned). -/
theorem convertSchema_sparse_entries_witness :
    ((wAggregate.map Prod.fst).Nodup ∧ "$$" ∉ wAggregate.map Prod.fst) ∧
      (convertSchema wAggregate 10 []).2 =
        ordinalTag 1 ((sparseObjEntries 10 wAggregate).map sparseTree) ∧
      (convertSchema wAggregate 10 []).1.map Prod.fst = fullKeys 10 wAggregate ++ ["$$"] ∧
      ∀ k e, (k, e) ∈ wAggregate → e.totalOccurrences ≠ 10 →
        k ∉ (convertSchema wAggregate 10 []).1.map Prod.fst :=
  ⟨⟨by decide, by decide⟩,
    convertSchema_sparse_entries wAggregate 10 [] (by decide) (by decide)⟩

/-- Aggregate reached by scanning the single document with a wholly
present Object field a holding one String subfield x. -/
def c3Aggregate : List (String × InterimEntry) :=
  [[("a", JSValue.vObject [("x", .vString "s")])]].foldl
    (fun acc d => reduceDocumentsterark 99 acc d) []

/-- Claim C3 counterexample: on the aggregate of one document whose field
a is a wholly present Object, the RowSchema column for a carries a nested
column tree whose keys are exactly x — no terminal entry is appended to
the nested tree of a wholly-present Object-typed column, contradicting
the claim that every such tree contains one. -/
theorem convertSchema_terminal_counterexample :
    ((convertSchema c3Aggregate 1 []).1.map
        (fun p => (p.1, (Column.nested p.2).map (fun t => t.map Prod.fst)))) =
      [("a", some ["x"]), ("$$", none)] ∧
      "$$" ∉ ["x"] :=
  ⟨rfl, by decide⟩

/-- Claim C3 as amended: the reserved terminal column is appended at the
top level of the RowSchema and at the top level of every NestedSchemaSet
entry's column tree (the nested trees of wholly-present Object columns,
and deeper levels, carry none): for every aggregate, the RowSchema maps
the terminal key to the CarBin column and every NestedSchemaSet entry's
column list ends with that terminal entry. -/
theorem convertSchema_terminal_columns (strc : List (String × InterimEntry)) (n : Nat)
    (flat : List (String × FlatEntry)) :
    assocLookup (convertSchema strc n flat).1 "$$" = some carbinColumn ∧
      ∀ p ∈ (convertSchema strc n flat).2, p.2.getLast? = some ("$$", carbinColumn) := by
  constructor
  · exact assocLookup_upsert_self _ _ _
  · intro p hp
    have h2 : (convertSchema strc n flat).2 =
        ordinalTag 1 ((sparseObjEntries n strc).map sparseTree) := by
      show (convertLoop n strc [] [] 1).2.1 = _
      simpa using convertLoop_nss n strc [] [] 1
    rw [h2] at hp
    obtain ⟨e, _, he⟩ := List.mem_map.mp (ordinalTag_mem _ _ _ hp)
    rw [← he]
    exact getLast?_append_single _ _

/-- Witness for the amended C3 on the three-entry witness aggregate,
whose NestedSchemaSet holds one concrete entry. -/
theorem convertSchema_terminal_columns_witness :
    (("1", sparseTree wObjectEntry) ∈ (convertSchema wAggregate 10 []).2) ∧
      assocLookup (convertSchema wAggregate 10 []).1 "$$" = some carbinColumn ∧
      ("1", sparseTree wObjectEntry).2.getLast? = some ("$$", carbinColumn) := by
  have hmem : ("1", sparseTree wObjectEntry) ∈ (convertSchema wAggregate 10 []).2 := by
    show ("1", sparseTree wObjectEntry) ∈ [("1", sparseTree wObjectEntry)]
    exact List.mem_singleton.mpr rfl
  exact ⟨hmem, (convertSchema_terminal_columns wAggregate 10 []).1,
    (convertSchema_terminal_columns wAggregate 10 []).2 _ hmem⟩

theorem str_empty_append (s : String) : "" ++ s = s := by
  cases s
  rfl

theorem specToken_eq (fk : String × JSValue) (hs : simpleDir fk.2 = true)
    (hh : ¬jsIsHashed fk.2 = true) : choiceStr fk.2 ++ fk.1 = specToken fk := by
  unfold specToken
  rw [if_neg hh]
  cases hv : fk.2 with
  | vNumber m =>
    rw [hv] at hs
    simp only [simpleDir, Bool.or_eq_true, decide_eq_true_eq] at hs
    rcases hs with hs | hs
    · simp [choiceStr, hs, str_empty_append]
    · simp [choiceStr, hs]
  | vString s =>
    rw [hv] at hs
    simp only [simpleDir, decide_eq_true_eq] at hs
    rw [hv] at hh
    simp [jsIsHashed, hs] at hh
  | vUndefined => rw [hv] at hs; simp [simpleDir] at hs
  | vNull => rw [hv] at hs; simp [simpleDir] at hs
  | vBool b => rw [hv] at hs; simp [simpleDir] at hs
  | vDate => rw [hv] at hs; simp [simpleDir] at hs
  | vNumberLong => rw [hv] at hs; simp [simpleDir] at hs
  | vObjectId => rw [hv] at hs; simp [simpleDir] at hs
  | vBinData => rw [hv] at hs; simp [simpleDir] at hs
  | vArray es => rw [hv] at hs; simp [simpleDir] at hs
  | vObject fs => rw [hv] at hs; simp [simpleDir] at hs

theorem indexFold_spec (key : List (String × JSValue)) (part : List String) (ord : Bool)
    (h : key.all (fun fk => simpleDir fk.2) = true) :
    key.foldl indexFieldStep (part, ord) =
      (part ++ key.map specToken, ord && key.all (fun fk => !jsIsHashed fk.2)) := by
  induction key generalizing part ord with
  | nil => simp
  | cons fk rest ih =>
    simp only [List.all_cons, Bool.and_eq_true] at h
    obtain ⟨h1, h2⟩ := h
    rw [List.foldl_cons]
    by_cases hh : jsIsHashed fk.2 = true
    · rw [show indexFieldStep (part, ord) fk = (part ++ [fk.1], false) from by
        simp [indexFieldStep, hh]]
      rw [ih _ _ h2]
      simp [specToken, hh, List.append_assoc]
    · rw [show indexFieldStep (part, ord) fk = (part ++ [choiceStr fk.2 ++ fk.1], ord) from by
        simp [indexFieldStep, hh]]
      rw [ih _ _ h2]
      rw [specToken_eq fk h1 hh]
      simp only [List.all_cons, Bool.not_eq_true] at hh ⊢
      simp [hh, List.append_assoc]

/-- Claim C6: the index translator preserves enumeration order and, per
index, matches the claimed per-field translation: whenever every key
direction is 1, -1 or hashed, the translator agrees everywhere with the
descriptor built from the claim's rules (the identifier index is fixed;
ascending fields bare, descending minus-prefixed, hashed bare and
clearing ordered; tokens comma-joined in declared order; unique exactly
when the source flag is literally true). -/
theorem generateIndex_spec (idxs : List MongoIndex) (h : allSimpleDirs idxs = true) :
    generateIndex idxs = idxs.map translateIndexSpec := by
  unfold generateIndex
  apply List.map_congr_left
  intro idx hidx
  have hidxdirs : idx.key.all (fun fk => simpleDir fk.2) = true := by
    unfold allSimpleDirs at h
    exact List.all_eq_true.mp h idx hidx
  unfold generateIndexOne translateIndexSpec
  by_cases hname : idx.name = "_id_"
  · simp [hname]
  · simp only [ne_eq, hname, not_false_eq_true, if_true, if_false]
    rw [indexFold_spec _ [] true hidxdirs]
    simp

/-- Witness index list for C6: a compound ascending/descending index, a
hashed index, and the identifier index. -/
def wIndexes : List MongoIndex :=
  [⟨"a_1_b_-1", [("a", .vNumber 1), ("b", .vNumber (-1))], .vBool false⟩,
    ⟨"c_hashed", [("c", .vString "hashed")], .vUndefined⟩,
    ⟨"_id_", [("_id", .vNumber 1)], .vUndefined⟩]

/-- Witness for C6: the hypothesis holds on the witness list, the
translator agrees with the claim-side translation there, and the
translation is the concrete descriptor list of the claim's examples. -/
theorem generateIndex_spec_witness :
    allSimpleDirs wIndexes = true ∧
      generateIndex wIndexes = wIndexes.map translateIndexSpec ∧
      generateIndex wIndexes =
        [⟨"a,-b", true, false⟩, ⟨"c", false, false⟩, ⟨"_id", true, true⟩] :=
  ⟨rfl, generateIndex_spec wIndexes rfl, rfl⟩

/-- Claim C9: when the collection configuration value is absent, or the
named collection contains zero documents, the run aborts with the
descriptive error that carries the comma-joined collection names of the
target database, before any scan: the run function returns that error and
produces no Result Document. -/
theorem runVariety_aborts (collection : Option String) (collectionNames : List String)
    (docsOf : String → List Document) (indexesOf : String → List MongoIndex)
    (maxDepth : Nat) (excludeSubkeys : List String)
    (h : collection = none ∨ ∃ c, collection = some c ∧ docsOf c = []) :
    runVariety collection collectionNames docsOf indexesOf maxDepth excludeSubkeys =
      .error
        (match collection with
        | none => missingCollectionMsg (String.intercalate ", " collectionNames)
        | some c => emptyCollectionMsg c (String.intercalate ", " collectionNames)) := by
  rcases h with h | ⟨c, hc, hdocs⟩
  · subst h
    rfl
  · subst hc
    simp [runVariety, hdocs]

/-- Witness for C9: a run against an empty collection named animals (and
one with the collection value absent) returns the abort error carrying
the database's collection names; no Result Document is produced. -/
theorem runVariety_aborts_witness :
    ((some "animals" : Option String) = none ∨
        ∃ c, (some "animals" : Option String) = some c ∧
          (fun _ : String => ([] : List Document)) c = []) ∧
      runVariety (some "animals") ["animals", "people"] (fun _ => []) (fun _ => []) 99 [] =
        .error (emptyCollectionMsg "animals" (String.intercalate ", " ["animals", "people"])) ∧
      runVariety none ["animals", "people"] (fun _ => []) (fun _ => []) 99 [] =
        .error (missingCollectionMsg (String.intercalate ", " ["animals", "people"])) :=
  ⟨Or.inr ⟨"animals", rfl, rfl⟩,
    runVariety_aborts (some "animals") ["animals", "people"] (fun _ => []) (fun _ => []) 99 []
      (Or.inr ⟨"animals", rfl, rfl⟩),
    runVariety_aborts none ["animals", "people"] (fun _ => []) (fun _ => []) 99 []
      (Or.inl rfl)⟩

end Variety
